import Mathlib

/-!
Verification of the isravelo static file server (`src/server.py`).

The source configures and starts `http.server.SimpleHTTPRequestHandler` behind
a `socketserver.TCPServer` bound to `("", PORT)` with `PORT = 8888`, prints one
banner line, and calls `serve_forever`.  The request-handling behaviour itself
lives in the Python standard library, not in this repository, so it is modelled
here from the specification (sections 4.1, 6 and 7 of `spec.md`); the startup
sequence is embedded directly from `src/server.py` lines 4-10.

Paths, file names and bodies are modelled as `List Char`; an HTTP method is a
`String`.  A filesystem is a finite tree of directories and regular files; a
file carries a flag recording whether reading it raises an I/O error (spec
section 7 requires such reads to become 500-class responses).
-/

set_option autoImplicit false

namespace IsraVelo

/-- A node of the filesystem: a regular file (its bytes, and whether reading it
raises an unexpected I/O error), or a directory with named entries. -/
inductive FSNode where
  | file : List Char → Bool → FSNode
  | dir : List (List Char × FSNode) → FSNode

/-- Look up a name among directory entries (first match). -/
def lookupEntry (name : List Char) : List (List Char × FSNode) → Option FSNode
  | [] => none
  | (n, node) :: rest => if n = name then some node else lookupEntry name rest

/-- Walk a filesystem tree along a list of plain path segments. -/
def resolve : FSNode → List (List Char) → Option FSNode
  | node, [] => some node
  | FSNode.file _ _, _ :: _ => none
  | FSNode.dir es, s :: rest =>
    match lookupEntry s es with
    | none => none
    | some child => resolve child rest

/-- Split a character list on a separator character. -/
def splitOnCharAux (sep : Char) : List Char → List Char → List (List Char)
  | cur, [] => [cur.reverse]
  | cur, c :: rest =>
    if c = sep then cur.reverse :: splitOnCharAux sep [] rest
    else splitOnCharAux sep (c :: cur) rest

/-- Split a character list on a separator character. -/
def splitOnChar (sep : Char) (l : List Char) : List (List Char) :=
  splitOnCharAux sep [] l

/-- Modelled from the spec: the handler maps the URL path onto filesystem
segments by splitting on `/` (the stdlib `SimpleHTTPRequestHandler` that does
this is not part of the repository). -/
def splitPath (p : List Char) : List (List Char) := splitOnChar '/' p

/-- A path segment that is not empty, not `.` and not `..`. -/
def cleanSeg (s : List Char) : Prop :=
  s ≠ [] ∧ s ≠ ['.'] ∧ s ≠ ['.', '.']

instance (s : List Char) : Decidable (cleanSeg s) := by
  unfold cleanSeg; infer_instance

/-- Stack-based path normalisation: `..` pops one component (clamped at the
root), `.` and empty components are dropped, plain components are pushed. -/
def normStack : List (List Char) → List (List Char) → List (List Char)
  | acc, [] => acc
  | acc, s :: rest =>
    if s = ['.', '.'] then normStack acc.tail rest
    else if s = ['.'] ∨ s = [] then normStack acc rest
    else normStack (s :: acc) rest

/-- Modelled from the spec: requests attempting to escape the served root are
"normalized to stay within the root" — parent-directory segments are resolved
away and never climb above the root (the normalising stdlib handler is not part
of the repository). -/
def normalize (l : List (List Char)) : List (List Char) :=
  (normStack [] l).reverse

/-- Operating-system path resolution: `..`, `.` and empty components get their
usual meaning (with `/..` clamped at the filesystem root, as on Unix), then the
tree is walked. -/
def osResolve (fs : FSNode) (p : List (List Char)) : Option FSNode :=
  resolve fs (normalize p)

/-- The file extension: everything after the last dot, or empty if none. -/
def extOf (name : List Char) : List Char :=
  let parts := splitOnChar '.' name
  if parts.length ≤ 1 then [] else parts.getLastD []

/-- Modelled from the spec: "content-type inference: mapping a file extension
to an HTTP Content-Type header value" (the stdlib extension map is not part of
the repository). -/
def extToMime (ext : List Char) : List Char :=
  if ext = "html".data ∨ ext = "htm".data then "text/html".data
  else if ext = "txt".data then "text/plain".data
  else if ext = "css".data then "text/css".data
  else if ext = "js".data then "application/javascript".data
  else "application/octet-stream".data

/-- One row of the generated directory listing. -/
def listingRows : List (List Char) → List Char
  | [] => []
  | n :: rest => "<li>".data ++ n ++ "</li>".data ++ listingRows rest

/-- Modelled from the spec: "an auto-generated HTML listing of directory
entries (names, possibly sizes)" (the stdlib listing generator is not part of
the repository). -/
def listingBody (names : List (List Char)) : List Char :=
  "<html><body><ul>".data ++ listingRows names ++ "</ul></body></html>".data

/-- Body of the generated 404 page. -/
def notFoundBody : List Char :=
  "<html><body>404 Not Found</body></html>".data

/-- Body of the generated 500 page. -/
def serverErrorBody : List Char :=
  "<html><body>500 Internal Server Error</body></html>".data

/-- Body of the generated 501 page. -/
def notImplementedBody : List Char :=
  "<html><body>501 Unsupported method</body></html>".data

/-- An HTTP response: status code, content-type header value, body bytes. -/
structure Response where
  status : Nat
  contentType : List Char
  body : List Char
  deriving DecidableEq

/-- Modelled from the spec, section 4.1 and 7: the response for a resolved
path — 404 when nothing is there, the file bytes with an inferred content type
for a regular file (500 if the read raises), a generated HTML listing for a
directory. `segs` are the normalised URL segments, used for the extension. -/
def respond (res : Option FSNode) (segs : List (List Char)) : Response :=
  match res with
  | none => { status := 404, contentType := "text/html".data, body := notFoundBody }
  | some (FSNode.file c readErr) =>
    if readErr then
      { status := 500, contentType := "text/html".data, body := serverErrorBody }
    else
      { status := 200, contentType := extToMime (extOf (segs.getLastD [])), body := c }
  | some (FSNode.dir es) =>
    { status := 200, contentType := "text/html".data,
      body := listingBody (es.map Prod.fst) }

/-- Modelled from the spec: the request handler bound at `src/server.py` line 6
(`Handler = http.server.SimpleHTTPRequestHandler`) is standard-library code not
present in the repository.  Per spec sections 4.1, 6 and 7 it serves only
GET/HEAD (other methods get 501), maps the URL path onto a filesystem path
relative to the working directory `cwd` after normalising away parent-directory
segments, and responds per `respond`. -/
def handleRequest (fs : FSNode) (cwd : List (List Char)) (method : String)
    (urlPath : List Char) : Response :=
  if method = "GET" ∨ method = "HEAD" then
    let segs := normalize (splitPath urlPath)
    respond (osResolve fs (cwd ++ segs)) segs
  else
    { status := 501, contentType := "text/html".data, body := notImplementedBody }

/-- Modelled from the spec: the serve loop routes each accepted request to the
handler; requests carry no state across each other (spec sections 3 and 5). -/
def serveRequests (fs : FSNode) (cwd : List (List Char))
    (reqs : List (String × List Char)) : List Response :=
  reqs.map fun r => handleRequest fs cwd r.1 r.2

/-- Resolution of a raw URL path inside a served root. -/
def resolveUrl (root : FSNode) (url : List Char) : Option FSNode :=
  resolve root (normalize (splitPath url))

/-- Render path segments joined by `/` (no leading slash). -/
def renderSegs : List (List Char) → List Char
  | [] => []
  | [s] => s
  | s :: rest => s ++ '/' :: renderSegs rest

/-- Render a URL path `/a/b/c` from segments. -/
def renderPath (segs : List (List Char)) : List Char :=
  '/' :: renderSegs segs

/-- Render a URL path with a trailing slash, `/a/b/c/`. -/
def renderPathDir (segs : List (List Char)) : List Char :=
  '/' :: (renderSegs segs ++ ['/'])

/-- From `src/server.py` line 4: `PORT = 8888`. -/
def PORT : Nat := 8888

/-- The banner printed at `src/server.py` line 9:
`print(f"Serving at http://localhost:{PORT}")`. -/
def bannerLine : List Char :=
  ("Serving at http://localhost:" ++ toString PORT).data

/-- An observable startup action of `src/server.py` lines 8-10. -/
inductive StartupEvent where
  | bindSocket : List Char → Nat → StartupEvent
  | printLine : List Char → StartupEvent
  | acceptLoop : StartupEvent
  deriving DecidableEq

/-- From `src/server.py` lines 8-10, in source order: bind
`socketserver.TCPServer(("", PORT), Handler)` — the empty host string binds all
interfaces — then print the banner, then `httpd.serve_forever()`. -/
def startupTrace : List StartupEvent :=
  [StartupEvent.bindSocket [] PORT,
   StartupEvent.printLine bannerLine,
   StartupEvent.acceptLoop]

/-- Outcome of process startup. -/
inductive StartupOutcome where
  | fatalAddrInUse : StartupOutcome
  | serving : List StartupEvent → StartupOutcome
  deriving DecidableEq

/-- From `src/server.py` lines 8-10: `socketserver.TCPServer(("", PORT),
Handler)` has no surrounding try/except and no retry loop, so when the port is
already bound the `OSError` (address in use) propagates, is reported as an
uncaught-exception traceback, and terminates the process; otherwise the server
runs the startup trace. -/
def startServer (portInUse : Bool) : StartupOutcome :=
  if portInUse then StartupOutcome.fatalAddrInUse
  else StartupOutcome.serving startupTrace

/-- Whether a startup event is a line printed to standard output. -/
def isPrintEvent : StartupEvent → Bool
  | StartupEvent.printLine _ => true
  | _ => false

/-- A sample filesystem for concrete checks: the process's working directory
`www` holds `index.html`, a subdirectory `docs` and a file whose read raises an
I/O error, while `secret.txt` lives outside the served root. -/
def demoFS : FSNode :=
  FSNode.dir
    [("www".data, FSNode.dir
        [("index.html".data, FSNode.file "<h1>hi</h1>".data false),
         ("docs".data, FSNode.dir
            [("a.txt".data, FSNode.file "A".data false),
             ("b.css".data, FSNode.file "color:red".data false)]),
         ("broken.txt".data, FSNode.file "X".data true)]),
     ("secret.txt".data, FSNode.file "TOPSECRET".data false)]

/-- The working directory of the sample filesystem. -/
def demoCwd : List (List Char) := ["www".data]

/-- The served-root subtree of `demoFS` at `demoCwd`. -/
def demoRoot : FSNode :=
  FSNode.dir
    [("index.html".data, FSNode.file "<h1>hi</h1>".data false),
     ("docs".data, FSNode.dir
        [("a.txt".data, FSNode.file "A".data false),
         ("b.css".data, FSNode.file "color:red".data false)]),
     ("broken.txt".data, FSNode.file "X".data true)]

/-- A served root whose directory `d` contains an `index.html`. -/
def idxRoot : FSNode :=
  FSNode.dir
    [("d".data, FSNode.dir
        [("index.html".data, FSNode.file "<h1>hi</h1>".data false),
         ("z.txt".data, FSNode.file "Z".data false)])]

/-! ### Helper lemmas about resolution and normalisation -/

theorem resolve_append (a b : List (List Char)) : ∀ fs : FSNode,
    resolve fs (a ++ b) = (resolve fs a).bind fun n => resolve n b := by
  induction a with
  | nil => intro fs; simp [resolve]
  | cons s t ih =>
    intro fs
    cases fs with
    | file c e => simp [resolve]
    | dir es =>
      simp only [List.cons_append, resolve]
      cases h : lookupEntry s es with
      | none => simp
      | some child => simp [ih child]

theorem normStack_append (xs ys : List (List Char)) : ∀ acc,
    normStack acc (xs ++ ys) = normStack (normStack acc xs) ys := by
  induction xs with
  | nil => intro acc; rfl
  | cons s t ih =>
    intro acc
    simp only [List.cons_append, normStack]
    by_cases h1 : s = ['.', '.']
    · simp [h1, ih]
    · by_cases h2 : s = ['.'] ∨ s = []
      · simp [h1, h2, ih]
      · simp [h1, h2, ih]

theorem normStack_of_clean (ys : List (List Char)) : ∀ acc,
    (∀ s ∈ ys, cleanSeg s) → normStack acc ys = ys.reverse ++ acc := by
  induction ys with
  | nil => intro acc _; rfl
  | cons s t ih =>
    intro acc h
    obtain ⟨h1, h2, h3⟩ := h s (List.mem_cons_self s t)
    simp only [normStack]
    rw [if_neg h3, if_neg (by simp [h1, h2]),
        ih _ (fun x hx => h x (List.mem_cons_of_mem _ hx))]
    simp

theorem mem_normStack (l : List (List Char)) : ∀ acc s,
    s ∈ normStack acc l → s ∈ acc ∨ cleanSeg s := by
  induction l with
  | nil => intro acc s h; exact Or.inl h
  | cons x t ih =>
    intro acc s h
    simp only [normStack] at h
    by_cases h1 : x = ['.', '.']
    · rw [if_pos h1] at h
      rcases ih _ _ h with hm | hc
      · exact Or.inl (List.mem_of_mem_tail hm)
      · exact Or.inr hc
    · rw [if_neg h1] at h
      by_cases h2 : x = ['.'] ∨ x = []
      · rw [if_pos h2] at h
        exact ih _ _ h
      · rw [if_neg h2] at h
        rcases ih _ _ h with hm | hc
        · rcases List.mem_cons.mp hm with rfl | hm2
          · push_neg at h2
            exact Or.inr ⟨h2.2, h2.1, h1⟩
          · exact Or.inl hm2
        · exact Or.inr hc

theorem mem_normalize_clean {l : List (List Char)} {s : List Char}
    (h : s ∈ normalize l) : cleanSeg s := by
  rcases mem_normStack l [] s (List.mem_reverse.mp h) with hm | hc
  · cases hm
  · exact hc

theorem normalize_of_clean (l : List (List Char))
    (h : ∀ s ∈ l, cleanSeg s) : normalize l = l := by
  unfold normalize
  rw [normStack_of_clean l [] h]
  simp

theorem normalize_idem (l : List (List Char)) :
    normalize (normalize l) = normalize l :=
  normalize_of_clean _ (fun _ hs => mem_normalize_clean hs)

theorem normalize_cons_nil (l : List (List Char)) :
    normalize ([] :: l) = normalize l := rfl

theorem normalize_append_clean (xs ys : List (List Char))
    (hx : ∀ s ∈ xs, cleanSeg s) (hy : ∀ s ∈ ys, cleanSeg s) :
    normalize (xs ++ ys) = xs ++ ys :=
  normalize_of_clean _ (by
    intro s hs
    rcases List.mem_append.mp hs with h | h
    · exact hx s h
    · exact hy s h)

/-! ### Helper lemmas about URL splitting and rendering -/

theorem splitOnCharAux_no_sep (sep : Char) (x : List Char) : ∀ (cur l : List Char),
    sep ∉ x → splitOnCharAux sep cur (x ++ l) = splitOnCharAux sep (x.reverse ++ cur) l := by
  induction x with
  | nil => intro cur l _; simp
  | cons c t ih =>
    intro cur l h
    have hc : ¬ c = sep := fun e => h (e ▸ List.mem_cons_self c t)
    simp only [List.cons_append, splitOnCharAux, List.append_eq]
    rw [if_neg hc, ih _ _ (fun hm => h (List.mem_cons_of_mem _ hm))]
    simp

theorem splitSegsAux_render (segs : List (List Char)) (hne : segs ≠ [])
    (h : ∀ s ∈ segs, '/' ∉ s) :
    splitOnCharAux '/' [] (renderSegs segs) = segs := by
  induction segs with
  | nil => exact absurd rfl hne
  | cons s t ih =>
    cases t with
    | nil =>
      have hs := splitOnCharAux_no_sep '/' s [] [] (h s (List.mem_cons_self s []))
      rw [List.append_nil] at hs
      show splitOnCharAux '/' [] s = [s]
      rw [hs]
      simp [splitOnCharAux]
    | cons y u =>
      show splitOnCharAux '/' [] (s ++ '/' :: renderSegs (y :: u)) = s :: y :: u
      rw [splitOnCharAux_no_sep '/' s [] _ (h s (List.mem_cons_self s (y :: u)))]
      simp only [splitOnCharAux, if_true, eq_self_iff_true, List.append_nil,
        List.reverse_reverse]
      rw [ih (by simp) (fun x hx => h x (List.mem_cons_of_mem _ hx))]

theorem splitSegsAux_renderDir (segs : List (List Char)) (hne : segs ≠ [])
    (h : ∀ s ∈ segs, '/' ∉ s) :
    splitOnCharAux '/' [] (renderSegs segs ++ ['/']) = segs ++ [[]] := by
  induction segs with
  | nil => exact absurd rfl hne
  | cons s t ih =>
    cases t with
    | nil =>
      show splitOnCharAux '/' [] (s ++ ['/']) = [s, []]
      rw [splitOnCharAux_no_sep '/' s [] _ (h s (List.mem_cons_self s []))]
      simp [splitOnCharAux]
    | cons y u =>
      show splitOnCharAux '/' [] ((s ++ '/' :: renderSegs (y :: u)) ++ ['/']) = (s :: y :: u) ++ [[]]
      rw [List.append_assoc, List.cons_append,
          splitOnCharAux_no_sep '/' s [] _ (h s (List.mem_cons_self s (y :: u)))]
      simp only [splitOnCharAux, if_true, eq_self_iff_true, List.append_nil,
        List.reverse_reverse]
      rw [ih (by simp) (fun x hx => h x (List.mem_cons_of_mem _ hx))]
      rfl

theorem splitPath_renderPath (segs : List (List Char)) (hne : segs ≠ [])
    (h : ∀ s ∈ segs, '/' ∉ s) :
    splitPath (renderPath segs) = [] :: segs := by
  show splitOnCharAux '/' [] ('/' :: renderSegs segs) = [] :: segs
  simp only [splitOnCharAux, if_true, eq_self_iff_true, List.reverse_nil]
  rw [splitSegsAux_render segs hne h]

theorem splitPath_renderPathDir (segs : List (List Char)) (hne : segs ≠ [])
    (h : ∀ s ∈ segs, '/' ∉ s) :
    splitPath (renderPathDir segs) = [] :: (segs ++ [[]]) := by
  show splitOnCharAux '/' [] ('/' :: (renderSegs segs ++ ['/'])) = [] :: (segs ++ [[]])
  simp only [splitOnCharAux, if_true, eq_self_iff_true, List.reverse_nil]
  rw [splitSegsAux_renderDir segs hne h]

/-! ### Helper lemmas about the handler and the serve loop -/

theorem handleRequest_get (root : FSNode) (url : List Char) :
    handleRequest root [] "GET" url =
      respond (resolveUrl root url) (normalize (splitPath url)) := by
  show respond (osResolve root ([] ++ normalize (splitPath url)))
      (normalize (splitPath url)) = _
  simp only [List.nil_append, osResolve, resolveUrl, normalize_idem]

theorem handleRequest_cwd (fs root : FSNode) (cwd : List (List Char)) (m : String)
    (url : List Char) (hcwd : ∀ s ∈ cwd, cleanSeg s)
    (hroot : osResolve fs cwd = some root) :
    handleRequest fs cwd m url = handleRequest root [] m url := by
  have hres : osResolve fs (cwd ++ normalize (splitPath url)) =
      osResolve root ([] ++ normalize (splitPath url)) := by
    have hns : ∀ s ∈ normalize (splitPath url), cleanSeg s :=
      fun _ hs => mem_normalize_clean hs
    have hfs : resolve fs cwd = some root := by
      have h2 := hroot
      unfold osResolve at h2
      rwa [normalize_of_clean cwd hcwd] at h2
    unfold osResolve
    rw [normalize_append_clean cwd _ hcwd hns, List.nil_append, normalize_idem,
        resolve_append, hfs]
    rfl
  simp only [handleRequest]
  by_cases hm : m = "GET" ∨ m = "HEAD"
  · rw [if_pos hm, if_pos hm, hres]
  · rw [if_neg hm, if_neg hm]

theorem handleRequest_renderPath (root : FSNode) (segs : List (List Char))
    (hne : segs ≠ []) (h : ∀ s ∈ segs, cleanSeg s ∧ '/' ∉ s) :
    handleRequest root [] "GET" (renderPath segs) = respond (resolve root segs) segs := by
  have hclean : ∀ s ∈ segs, cleanSeg s := fun s hs => (h s hs).1
  have hslash : ∀ s ∈ segs, '/' ∉ s := fun s hs => (h s hs).2
  have hnorm : normalize (splitPath (renderPath segs)) = segs := by
    rw [splitPath_renderPath segs hne hslash, normalize_cons_nil,
        normalize_of_clean segs hclean]
  show respond (osResolve root ([] ++ normalize (splitPath (renderPath segs))))
      (normalize (splitPath (renderPath segs))) = _
  rw [hnorm, List.nil_append]
  unfold osResolve
  rw [normalize_of_clean segs hclean]

theorem handleRequest_renderPathDir (root : FSNode) (segs : List (List Char))
    (hne : segs ≠ []) (h : ∀ s ∈ segs, cleanSeg s ∧ '/' ∉ s) :
    handleRequest root [] "GET" (renderPathDir segs) = respond (resolve root segs) segs := by
  have hclean : ∀ s ∈ segs, cleanSeg s := fun s hs => (h s hs).1
  have hslash : ∀ s ∈ segs, '/' ∉ s := fun s hs => (h s hs).2
  have hnorm : normalize (splitPath (renderPathDir segs)) = segs := by
    rw [splitPath_renderPathDir segs hne hslash, normalize_cons_nil]
    unfold normalize
    rw [normStack_append segs [[]] [], normStack_of_clean segs [] hclean]
    have hskip : normStack (segs.reverse ++ []) [[]] = segs.reverse ++ [] := rfl
    rw [hskip]
    simp
  show respond (osResolve root ([] ++ normalize (splitPath (renderPathDir segs))))
      (normalize (splitPath (renderPathDir segs))) = _
  rw [hnorm, List.nil_append]
  unfold osResolve
  rw [normalize_of_clean segs hclean]

theorem serveRequests_split (fs : FSNode) (cwd : List (List Char))
    (pre post : List (String × List Char)) (m : String) (u : List Char) :
    serveRequests fs cwd (pre ++ (m, u) :: post) =
      serveRequests fs cwd pre ++
        handleRequest fs cwd m u :: serveRequests fs cwd post := by
  simp [serveRequests]

theorem serveRequests_length (fs : FSNode) (cwd : List (List Char))
    (reqs : List (String × List Char)) :
    (serveRequests fs cwd reqs).length = reqs.length := by
  simp [serveRequests]

theorem listingRows_contains (names : List (List Char)) (n : List Char)
    (h : n ∈ names) : ∃ p q, listingRows names = p ++ n ++ q := by
  induction names with
  | nil => cases h
  | cons x t ih =>
    rcases List.mem_cons.mp h with rfl | h2
    · exact ⟨"<li>".data, "</li>".data ++ listingRows t, by simp [listingRows]⟩
    · obtain ⟨p, q, hpq⟩ := ih h2
      exact ⟨"<li>".data ++ x ++ "</li>".data ++ p, q, by simp [listingRows, hpq]⟩

theorem listingBody_contains (names : List (List Char)) (n : List Char)
    (h : n ∈ names) : ∃ p q, listingBody names = p ++ n ++ q := by
  obtain ⟨p, q, hpq⟩ := listingRows_contains names n h
  exact ⟨"<html><body><ul>".data ++ p, q ++ "</ul></body></html>".data,
    by simp [listingBody, hpq]⟩

/-! ### Claim theorems -/

/-- C1: path traversal cannot escape the served root.  When the working
directory `cwd` resolves to the subtree `root`, every request is answered
exactly as it would be against `root` served on its own — so the response can
never carry the contents of a file outside the served root — and the
normalised URL segments never retain a parent-directory component. -/
theorem c1_no_escape (fs root : FSNode) (cwd : List (List Char)) (m : String)
    (url : List Char) (hcwd : ∀ s ∈ cwd, cleanSeg s)
    (hroot : osResolve fs cwd = some root) :
    handleRequest fs cwd m url = handleRequest root [] m url ∧
      ∀ s ∈ normalize (splitPath url), s ≠ ['.', '.'] := by
  refine ⟨handleRequest_cwd fs root cwd m url hcwd hroot, ?_⟩
  intro s hs
  exact (mem_normalize_clean hs).2.2

/-- C1 witness: the traversal URL `/../secret.txt`, served with working
directory `www` of `demoFS`, is answered exactly as against the `www` subtree
alone; the contents of the outside file `secret.txt` cannot appear. -/
theorem c1_no_escape_witness :
    (∀ s ∈ demoCwd, cleanSeg s) ∧ osResolve demoFS demoCwd = some demoRoot ∧
      (handleRequest demoFS demoCwd "GET" "/../secret.txt".data =
          handleRequest demoRoot [] "GET" "/../secret.txt".data ∧
        ∀ s ∈ normalize (splitPath "/../secret.txt".data), s ≠ ['.', '.']) :=
  ⟨by decide, rfl,
    c1_no_escape demoFS demoRoot demoCwd "GET" "/../secret.txt".data (by decide) rfl⟩

/-- C2: a GET for the path of a regular file under the served root (whose read
succeeds) returns status 200, a content type inferred from the file's
extension, and the file's bytes exactly. -/
theorem c2_file_served (root : FSNode) (segs : List (List Char)) (c : List Char)
    (hne : segs ≠ []) (h : ∀ s ∈ segs, cleanSeg s ∧ '/' ∉ s)
    (hres : resolve root segs = some (FSNode.file c false)) :
    handleRequest root [] "GET" (renderPath segs) =
      { status := 200, contentType := extToMime (extOf (segs.getLastD [])),
        body := c } := by
  rw [handleRequest_renderPath root segs hne h, hres]
  rfl

/-- C2 witness: `GET /index.html` on `demoRoot` returns 200, `text/html` and
the body `<h1>hi</h1>` byte for byte, as in the spec's example scenario. -/
theorem c2_file_served_witness :
    (["index.html".data] ≠ ([] : List (List Char))) ∧
      (∀ s ∈ [("index.html".data : List Char)], cleanSeg s ∧ '/' ∉ s) ∧
      resolve demoRoot ["index.html".data] =
        some (FSNode.file "<h1>hi</h1>".data false) ∧
      handleRequest demoRoot [] "GET" (renderPath ["index.html".data]) =
        { status := 200,
          contentType := extToMime (extOf (["index.html".data].getLastD [])),
          body := "<h1>hi</h1>".data } :=
  ⟨by decide, by decide, rfl,
    c2_file_served demoRoot ["index.html".data] "<h1>hi</h1>".data
      (by decide) (by decide) rfl⟩

/-- C3: when the configured port is already bound, startup yields the fatal
address-in-use outcome and never a serving state: the error is surfaced and
the process terminates; the source has no retry or port-hunting path. -/
theorem c3_bind_failure (portInUse : Bool) (h : portInUse = true) :
    startServer portInUse = StartupOutcome.fatalAddrInUse ∧
      ∀ t, startServer portInUse ≠ StartupOutcome.serving t := by
  subst h
  refine ⟨rfl, fun t hc => ?_⟩
  simp [startServer] at hc

/-- C3 witness: with the port in use, startup is the fatal outcome. -/
theorem c3_bind_failure_witness :
    (true = true) ∧
      (startServer true = StartupOutcome.fatalAddrInUse ∧
        ∀ t, startServer true ≠ StartupOutcome.serving t) :=
  ⟨rfl, c3_bind_failure true rfl⟩

/-- C4: a GET for a URL that resolves to nothing under the served root is
answered 404, and a request sequence containing it is still answered
request-by-request: every other request gets exactly its usual response. -/
theorem c4_not_found (root : FSNode) (url : List Char)
    (hres : resolveUrl root url = none) :
    handleRequest root [] "GET" url =
      { status := 404, contentType := "text/html".data, body := notFoundBody } ∧
    ∀ pre post, serveRequests root [] (pre ++ ("GET", url) :: post) =
      serveRequests root [] pre ++
        { status := 404, contentType := "text/html".data, body := notFoundBody } ::
          serveRequests root [] post := by
  have h1 : handleRequest root [] "GET" url =
      { status := 404, contentType := "text/html".data, body := notFoundBody } := by
    rw [handleRequest_get root url, hres]
    rfl
  refine ⟨h1, fun pre post => ?_⟩
  rw [serveRequests_split root [] pre post "GET" url, h1]

/-- C4 witness: `GET /missing.txt` on `demoRoot` is a 404, and a three-request
sequence around it is answered one response per request. -/
theorem c4_not_found_witness :
    resolveUrl demoRoot "/missing.txt".data = none ∧
      handleRequest demoRoot [] "GET" "/missing.txt".data =
        { status := 404, contentType := "text/html".data, body := notFoundBody } ∧
      serveRequests demoRoot []
          ([("GET", "/index.html".data)] ++
            ("GET", "/missing.txt".data) :: [("GET", "/index.html".data)]) =
        serveRequests demoRoot [] [("GET", "/index.html".data)] ++
          { status := 404, contentType := "text/html".data, body := notFoundBody } ::
            serveRequests demoRoot [] [("GET", "/index.html".data)] :=
  ⟨rfl, (c4_not_found demoRoot "/missing.txt".data rfl).1,
    (c4_not_found demoRoot "/missing.txt".data rfl).2
      [("GET", "/index.html".data)] [("GET", "/index.html".data)]⟩

/-- C5: a GET for a directory path (with trailing slash) under the served root
returns status 200 with content type `text/html` and the auto-generated HTML
listing as body, and the name of each immediate entry occurs in that body. -/
theorem c5_dir_listing (root : FSNode) (segs : List (List Char))
    (es : List (List Char × FSNode)) (hne : segs ≠ [])
    (h : ∀ s ∈ segs, cleanSeg s ∧ '/' ∉ s)
    (hres : resolve root segs = some (FSNode.dir es)) :
    handleRequest root [] "GET" (renderPathDir segs) =
      { status := 200, contentType := "text/html".data,
        body := listingBody (es.map Prod.fst) } ∧
    ∀ n ∈ es.map Prod.fst, ∃ p q, listingBody (es.map Prod.fst) = p ++ n ++ q := by
  constructor
  · rw [handleRequest_renderPathDir root segs hne h, hres]
    rfl
  · exact fun n hn => listingBody_contains _ n hn

/-- C5 witness: `GET /docs/` on `demoRoot` returns the 200 `text/html` listing
of the entries `a.txt` and `b.css`, whose names occur in the body. -/
theorem c5_dir_listing_witness :
    (["docs".data] ≠ ([] : List (List Char))) ∧
      (∀ s ∈ [("docs".data : List Char)], cleanSeg s ∧ '/' ∉ s) ∧
      resolve demoRoot ["docs".data] =
        some (FSNode.dir
          [("a.txt".data, FSNode.file "A".data false),
           ("b.css".data, FSNode.file "color:red".data false)]) ∧
      (handleRequest demoRoot [] "GET" (renderPathDir ["docs".data]) =
          { status := 200, contentType := "text/html".data,
            body := listingBody ["a.txt".data, "b.css".data] } ∧
        ∀ n ∈ [("a.txt".data : List Char), "b.css".data],
          ∃ p q, listingBody ["a.txt".data, "b.css".data] = p ++ n ++ q) :=
  ⟨by decide, by decide, rfl,
    c5_dir_listing demoRoot ["docs".data]
      [("a.txt".data, FSNode.file "A".data false),
       ("b.css".data, FSNode.file "color:red".data false)]
      (by decide) (by decide) rfl⟩

/-- C6: a request whose resolved file read raises an I/O error is answered
with a 500 response; the serve loop still answers the requests around it
exactly as usual and answers every request of any sequence (no per-request
error stops serving), and the only startup outcome that terminates the process
is the bind failure. -/
theorem c6_read_error (root : FSNode) (url c : List Char)
    (hres : resolveUrl root url = some (FSNode.file c true)) :
    (handleRequest root [] "GET" url).status = 500 ∧
    (∀ pre post, serveRequests root [] (pre ++ ("GET", url) :: post) =
      serveRequests root [] pre ++
        handleRequest root [] "GET" url :: serveRequests root [] post) ∧
    (∀ reqs, (serveRequests root [] reqs).length = reqs.length) ∧
    (∀ b, startServer b = StartupOutcome.fatalAddrInUse → b = true) := by
  refine ⟨?_, fun pre post => serveRequests_split root [] pre post "GET" url,
    fun reqs => serveRequests_length root [] reqs, ?_⟩
  · rw [handleRequest_get root url, hres]
    rfl
  · intro b hb
    cases b with
    | false => simp [startServer] at hb
    | true => rfl

/-- C6 witness: `GET /broken.txt` on `demoRoot` (whose read raises) is a 500,
applied at a concrete failing file. -/
theorem c6_read_error_witness :
    resolveUrl demoRoot "/broken.txt".data = some (FSNode.file "X".data true) ∧
      (handleRequest demoRoot [] "GET" "/broken.txt".data).status = 500 :=
  ⟨rfl, (c6_read_error demoRoot "/broken.txt".data "X".data rfl).1⟩

/-- C7: startup performs, in source order, exactly: bind one socket to all
interfaces (empty host) on port 8888, print the single banner line
`Serving at http://localhost:8888` to standard output, and enter the accept
loop as the final, indefinitely blocking action. -/
theorem c7_startup_order :
    startupTrace =
      [StartupEvent.bindSocket [] 8888,
       StartupEvent.printLine "Serving at http://localhost:8888".data,
       StartupEvent.acceptLoop] ∧
    PORT = 8888 ∧
    (startupTrace.filter isPrintEvent).length = 1 ∧
    startupTrace.getLast? = some StartupEvent.acceptLoop := by
  refine ⟨?_, rfl, ?_, rfl⟩ <;> rfl

/-- C8: a request whose method is neither GET nor HEAD is answered with status
501 (hence a 501-or-405 status as specified), and the serve loop still answers
the requests around it and every request of any sequence. -/
theorem c8_method_not_allowed (fs : FSNode) (cwd : List (List Char)) (m : String)
    (url : List Char) (h1 : m ≠ "GET") (h2 : m ≠ "HEAD") :
    ((handleRequest fs cwd m url).status = 501 ∨
      (handleRequest fs cwd m url).status = 405) ∧
    (∀ pre post, serveRequests fs cwd (pre ++ (m, url) :: post) =
      serveRequests fs cwd pre ++
        handleRequest fs cwd m url :: serveRequests fs cwd post) ∧
    (∀ reqs, (serveRequests fs cwd reqs).length = reqs.length) := by
  have hm : ¬ (m = "GET" ∨ m = "HEAD") := by
    rintro (e | e)
    · exact h1 e
    · exact h2 e
  refine ⟨Or.inl ?_, fun pre post => serveRequests_split fs cwd pre post m url,
    fun reqs => serveRequests_length fs cwd reqs⟩
  simp only [handleRequest]
  rw [if_neg hm]

/-- C8 witness: a `POST /index.html` on `demoRoot` gets status 501. -/
theorem c8_method_not_allowed_witness :
    (("POST" : String) ≠ "GET") ∧ (("POST" : String) ≠ "HEAD") ∧
      ((handleRequest demoRoot [] "POST" "/index.html".data).status = 501 ∨
        (handleRequest demoRoot [] "POST" "/index.html".data).status = 405) :=
  ⟨by decide, by decide,
    (c8_method_not_allowed demoRoot [] "POST" "/index.html".data
      (by decide) (by decide)).1⟩

/-- C9 counterexample: under the spec-modelled handler, `GET /d/` on a
directory `d` that contains `index.html` returns the generated listing, not
the index file's contents. -/
theorem c9_counterexample :
    (handleRequest idxRoot [] "GET" "/d/".data).body ≠ "<h1>hi</h1>".data ∧
    (handleRequest idxRoot [] "GET" "/d/".data).body =
      listingBody ["index.html".data, "z.txt".data] := by
  exact ⟨by decide, rfl⟩

/-- C9 amended: a GET for a directory path returns the auto-generated listing
of the directory's entries even when the directory contains an entry named
`index.html` — the spec's directory contract (section 4.1) makes no provision
for index files. -/
theorem c9_index_ignored (root : FSNode) (segs : List (List Char))
    (es : List (List Char × FSNode)) (hne : segs ≠ [])
    (h : ∀ s ∈ segs, cleanSeg s ∧ '/' ∉ s)
    (hres : resolve root segs = some (FSNode.dir es))
    (_hidx : "index.html".data ∈ es.map Prod.fst) :
    handleRequest root [] "GET" (renderPathDir segs) =
      { status := 200, contentType := "text/html".data,
        body := listingBody (es.map Prod.fst) } := by
  rw [handleRequest_renderPathDir root segs hne h, hres]
  rfl

/-- C9 amended witness: `GET /d/` on `idxRoot`, whose `d` holds `index.html`,
returns the generated listing. -/
theorem c9_index_ignored_witness :
    (["d".data] ≠ ([] : List (List Char))) ∧
      (∀ s ∈ [("d".data : List Char)], cleanSeg s ∧ '/' ∉ s) ∧
      resolve idxRoot ["d".data] =
        some (FSNode.dir
          [("index.html".data, FSNode.file "<h1>hi</h1>".data false),
           ("z.txt".data, FSNode.file "Z".data false)]) ∧
      ("index.html".data ∈
        [("index.html".data, FSNode.file "<h1>hi</h1>".data false),
         ("z.txt".data, FSNode.file "Z".data false)].map Prod.fst) ∧
      handleRequest idxRoot [] "GET" (renderPathDir ["d".data]) =
        { status := 200, contentType := "text/html".data,
          body := listingBody ["index.html".data, "z.txt".data] } :=
  ⟨by decide, by decide, rfl, by simp,
    c9_index_ignored idxRoot ["d".data]
      [("index.html".data, FSNode.file "<h1>hi</h1>".data false),
       ("z.txt".data, FSNode.file "Z".data false)]
      (by decide) (by decide) rfl (by simp)⟩

/-- C10 counterexample: under the spec-modelled handler, `GET /d` (no trailing
slash) on an existing directory returns status 200, not a 301 redirect. -/
theorem c10_counterexample :
    (handleRequest idxRoot [] "GET" "/d".data).status = 200 ∧
    (handleRequest idxRoot [] "GET" "/d".data).status ≠ 301 :=
  ⟨rfl, by decide⟩

/-- C10 amended: a GET for a directory path without a trailing slash is served
exactly like the same path with a trailing slash — status 200 with the
generated listing — rather than with a 301 redirect, per the spec's
request/response table (section 6). -/
theorem c10_no_redirect (root : FSNode) (segs : List (List Char))
    (es : List (List Char × FSNode)) (hne : segs ≠ [])
    (h : ∀ s ∈ segs, cleanSeg s ∧ '/' ∉ s)
    (hres : resolve root segs = some (FSNode.dir es)) :
    handleRequest root [] "GET" (renderPath segs) =
      { status := 200, contentType := "text/html".data,
        body := listingBody (es.map Prod.fst) } ∧
    handleRequest root [] "GET" (renderPath segs) =
      handleRequest root [] "GET" (renderPathDir segs) := by
  have ha := handleRequest_renderPath root segs hne h
  have hb := handleRequest_renderPathDir root segs hne h
  rw [ha, hb, hres]
  exact ⟨rfl, rfl⟩

/-- C10 amended witness: `GET /d` on `idxRoot` returns the 200 listing, the
same response as `GET /d/`. -/
theorem c10_no_redirect_witness :
    (["d".data] ≠ ([] : List (List Char))) ∧
      (∀ s ∈ [("d".data : List Char)], cleanSeg s ∧ '/' ∉ s) ∧
      resolve idxRoot ["d".data] =
        some (FSNode.dir
          [("index.html".data, FSNode.file "<h1>hi</h1>".data false),
           ("z.txt".data, FSNode.file "Z".data false)]) ∧
      (handleRequest idxRoot [] "GET" (renderPath ["d".data]) =
          { status := 200, contentType := "text/html".data,
            body := listingBody ["index.html".data, "z.txt".data] } ∧
        handleRequest idxRoot [] "GET" (renderPath ["d".data]) =
          handleRequest idxRoot [] "GET" (renderPathDir ["d".data])) :=
  ⟨by decide, by decide, rfl,
    c10_no_redirect idxRoot ["d".data]
      [("index.html".data, FSNode.file "<h1>hi</h1>".data false),
       ("z.txt".data, FSNode.file "Z".data false)]
      (by decide) (by decide) rfl⟩

end IsraVelo
